import Mathlib

/-
  Verification development for the Document Assistant repository.

  The repository under verification consists of the Electron desktop shell
  (electron/main.js, electron/preload.js) and the React frontend
  (services/api.js, pages/HomePage.js, pages/ChatPage.js).  The Python
  backend (retrieval pipeline, dual indexes) is not part of the sources;
  where a property depends on it, the corresponding definition is modelled
  from the specification and is marked as such in its doc comment.

  Frontend functions are embedded as pure Lean functions over explicit
  outcome values: a JavaScript async call that can either resolve or throw
  becomes a parameter of an explicit outcome type, and the handler body is
  translated as a total function of that outcome.
-/

namespace DocAssistant

/-! ## Data model shared by the frontend pages -/

/-- Status values of an upload-queue item, from the comment and the state
updates in HomePage.handleFileUpload and uploadWithConcurrency
(part_004 lines 74-119): waiting, uploading, completed, error. -/
inductive UploadStatus
| waiting
| uploading
| completed
| error
deriving DecidableEq, Repr

/-- A document entry as consumed by the home page.  The fields name and
collections reflect the accesses doc.name and doc.collections.length in
the HomePage render (part_004 lines 224-234).  The field chunk_count is
modelled from the spec, which states that list_documents returns objects
of shape name and chunk_count; it is carried here so that the rendering
can be compared against that claimed shape. -/
structure DocumentEntry where
  name : String
  chunk_count : Nat
  collections : List String
deriving DecidableEq, Repr

/-! ## HomePage.loadDocuments and the document-list render (C2) -/

/-- Embedding of HomePage.loadDocuments (part_004 lines 47-56): on success
the response list replaces the stored documents unchanged; on failure the
stored list is left as it was (the catch branch only logs). -/
def loadDocuments (prev : List DocumentEntry)
    (r : Except String (List DocumentEntry)) : List DocumentEntry :=
  match r with
  | .ok docs => docs
  | .error _ => prev

/-- Embedding of one document card of the HomePage render (part_004 lines
224-234): it shows doc.name and the count doc.collections.length. -/
def renderDocCard (d : DocumentEntry) : String × Nat :=
  (d.name, d.collections.length)

/-- Embedding of the documents.map render over the stored list. -/
def renderDocumentsList (docs : List DocumentEntry) : List (String × Nat) :=
  docs.map renderDocCard

/-! ## HomePage.handleDelete (C5) -/

/-- Outcome of the awaited apiService.deleteDocument call. -/
inductive DeleteOutcome
| success
| failure (msg : String)

/-- Embedding of HomePage.handleDelete after the user confirmation
(part_004 lines 36-44): on success the stored list is filtered to drop
every entry whose name equals the deleted name; on failure (the catch
branch) the list is unchanged. -/
def handleDelete (docs : List DocumentEntry) (docName : String)
    (r : DeleteOutcome) : List DocumentEntry :=
  match r with
  | .success => docs.filter (fun d => d.name != docName)
  | .failure _ => docs

/-! ## HomePage.checkBackend and the Electron health handler (C6) -/

/-- Outcome of the awaited apiService.checkHealth call: either the request
resolved, or it threw with some error. -/
inductive HealthCallResult
| success
| failure (msg : String)

/-- Connection status kept in HomePage state: initial value checking, then
connected or disconnected. -/
inductive BackendStatus
| checking
| connected
| disconnected
deriving DecidableEq, Repr

/-- Embedding of HomePage.checkBackend (part_004 lines 19-27): the try
branch sets connected, the catch branch sets disconnected. -/
def checkBackend (r : HealthCallResult) : BackendStatus :=
  match r with
  | .success => .connected
  | .failure _ => .disconnected

/-- Outcome of the fetch call inside the Electron handler: either an HTTP
response carrying its ok flag, or a thrown network error. -/
inductive FetchResult
| response (ok : Bool)
| networkError (msg : String)

/-- Embedding of the check-backend-status handler in electron/main.js
lines 129-137: on a response it returns response.ok, on any thrown error
it returns false.  Totality of this Lean function is the never-raises
part of the handler contract. -/
def checkBackendStatusHandler (r : FetchResult) : Bool :=
  match r with
  | .response ok => ok
  | .networkError _ => false

/-! ## HomePage.handleFileUpload file filtering (C8) -/

/-- A file taken from the file-input selection; only its name is consumed
by the filtering logic. -/
structure SelectedFile where
  name : String
deriving DecidableEq, Repr

/-- Executable model of the JavaScript endsWith test on strings: the
character sequence of the pattern is a suffix of the character sequence of
the string. -/
def strEndsWith (s pat : String) : Bool :=
  pat.data.isSuffixOf s.data

/-- Embedding of the PDF filter in handleFileUpload (part_004 line 63):
pdfFiles is the sublist of selected files whose name ends with ".pdf". -/
def pdfOnly (files : List SelectedFile) : List SelectedFile :=
  files.filter (fun f => strEndsWith f.name ".pdf")

/-- Embedding of the early return in handleFileUpload (part_004 lines
64-67): when no selected file is a PDF the handler returns before any
queue is built, so no file is handed to uploadWithConcurrency. -/
def uploadedFiles (files : List SelectedFile) : List SelectedFile :=
  let pdfs := pdfOnly files
  if pdfs.isEmpty then [] else pdfs

/-- Embedding of the upload-queue initialization in handleFileUpload
(part_004 lines 74-81), including the early return: when no PDF is
selected the queue stays empty, otherwise one waiting item per PDF. -/
def handleFileUploadQueue (files : List SelectedFile) :
    List (String × UploadStatus) :=
  let pdfs := pdfOnly files
  if pdfs.isEmpty then []
  else pdfs.map (fun f => (f.name, UploadStatus.waiting))

/-! ## ChatPage model (C3, C10) -/

/-- One source attached to an answer.  The four fields are those named by
the spec interface of ask; the frontend reads doc_name, page and
toc_section in the sources render (part_003 lines 211-217) and stores the
whole object in state.  Confidence is modelled from the spec as a
rational in the unit interval. -/
structure Source where
  doc_name : String
  page : Nat
  toc_section : String
  confidence : ℚ
deriving DecidableEq

/-- The JSON body posted by apiService.askQuestion (part_003 lines 45-55):
exactly the two fields question and doc_name. -/
structure AskRequest where
  question : String
  doc_name : Option String
deriving DecidableEq

/-- Embedding of apiService.askQuestion building its request body. -/
def buildAskRequest (question : String) (docName : Option String) :
    AskRequest :=
  { question := question, doc_name := docName }

/-- Outcome of the awaited askQuestion call: the parsed response with its
answer and sources fields, or a thrown error. -/
inductive AskOutcome
| success (answer : String) (sources : List Source)
| failure (msg : String)

/-- The type tag of a chat message: user, assistant or error
(part_003 lines 137-160). -/
inductive MsgType
| user
| assistant
| error
deriving DecidableEq, Repr

/-- A chat message as stored in ChatPage state; user and error messages
carry no sources, the assistant message stores response.sources. -/
structure ChatMessage where
  type : MsgType
  content : String
  sources : List Source
deriving DecidableEq

/-- Executable model of the JavaScript trim call on strings: drop unicode
whitespace from both ends of the character sequence. -/
def strTrim (s : String) : String :=
  String.mk
    (((s.data.dropWhile Char.isWhitespace).reverse.dropWhile
        Char.isWhitespace).reverse)

/-- Embedding of the docName selection in ChatPage (part_003 line 115):
location.state?.docName falls back to null, and the or-null coercion also
maps an empty string to null. -/
def selectedDocName (state : Option String) : Option String :=
  match state with
  | some n => if n = "" then none else some n
  | none => none

/-- The error-message text built in the catch branch of handleSend
(part_003 line 158). -/
def answerErrorText (e : String) : String :=
  "답변을 생성하는 중 오류가 발생했습니다: " ++ e

/-- Embedding of ChatPage.handleSend (part_003 lines 130-164): an empty
trimmed input or an in-flight request returns immediately with no state
change and no request; otherwise the trimmed user message is appended,
the request question and doc_name is issued, and depending on the
outcome exactly one assistant message (with the response answer and
sources) or exactly one error message is appended. -/
def handleSend (input : String) (loading : Bool) (docName : Option String)
    (msgs : List ChatMessage) (outcome : AskOutcome) :
    List ChatMessage × Option AskRequest :=
  if strTrim input = "" ∨ loading = true then (msgs, none)
  else
    let userMessage := strTrim input
    let withUser := msgs ++ [⟨.user, userMessage, []⟩]
    match outcome with
    | .success ans srcs =>
        (withUser ++ [⟨.assistant, ans, srcs⟩],
          some (buildAskRequest userMessage docName))
    | .failure e =>
        (withUser ++ [⟨.error, answerErrorText e, []⟩],
          some (buildAskRequest userMessage docName))

/-- Embedding of one source item of the ChatPage sources render
(part_003 lines 211-217): it shows doc_name, page and toc_section. -/
def renderSourceItem (s : Source) : String × Nat × String :=
  (s.doc_name, s.page, s.toc_section)

/-! ## Upload scheduler model (C1, C9)

Embedding of uploadWithConcurrency (part_004 lines 90-132).  Queue items
are identified by their position in the submitted batch; this matches the
per-item status updates of the source under the assumption, delivered by
a single file-input selection, that file names within one batch are
distinct.  The admission loop takes pending.shift() (the head of the
FIFO queue) while active.size is below the cap; a finished upload leaves
the active set through the finally branch after setting its status to
completed or error. -/

/-- Scheduler state: pending holds the indices not yet admitted in
submission order, active the indices currently in flight, status the
displayed status of every item. -/
structure SchedState where
  pending : List Nat
  active : List Nat
  status : List UploadStatus
deriving DecidableEq, Repr

/-- Initial scheduler state for a batch of n items (part_004 lines 74-91):
every item waiting, nothing in flight, pending in submission order. -/
def schedInit (n : Nat) : SchedState :=
  ⟨List.range' 0 n, [], List.replicate n UploadStatus.waiting⟩

/-- The displayed status of item i. -/
def statusAt (s : SchedState) (i : Nat) : UploadStatus :=
  s.status.getD i UploadStatus.error

/-- One scheduler transition: start the head of the pending queue while a
slot is free (part_004 lines 124-128), or let an in-flight upload finish
with success or with failure (part_004 lines 100-118). -/
inductive UploadStep (cap : Nat) : SchedState → SchedState → Prop
| start (s : SchedState) (i : Nat) (rest : List Nat) :
    s.active.length < cap → s.pending = i :: rest →
    UploadStep cap s
      ⟨rest, i :: s.active, s.status.set i UploadStatus.uploading⟩
| finishOk (s : SchedState) (i : Nat) :
    i ∈ s.active →
    UploadStep cap s
      ⟨s.pending, s.active.erase i, s.status.set i UploadStatus.completed⟩
| finishErr (s : SchedState) (i : Nat) :
    i ∈ s.active →
    UploadStep cap s
      ⟨s.pending, s.active.erase i, s.status.set i UploadStatus.error⟩

/-- The states the scheduler can reach from the initial state of a batch
of n items under concurrency cap. -/
def UploadReachable (n cap : Nat) (s : SchedState) : Prop :=
  Relation.ReflTransGen (UploadStep cap) (schedInit n) s

/-! ## Dual-index orchestrator model (C4)

The orchestrator, the Lexical Index and the Vector Store are backend
components not present under the sources; the definitions of this
section are modelled from the spec as the doc comments state. -/

/-- Modelled from the spec: outcome of the dual-index write during
ingestion.  Either both index writes succeed, or exactly one of them
fails after the other has already been written. -/
inductive IngestOutcome
| bothOk
| lexWriteFailed
| vecWriteFailed

/-- Modelled from the spec: the operations the orchestrator drives
against the two indexes, keyed by chunk IDs: ingestion of a chunk-id
batch with its write outcome, deletion of the chunk ids of a document,
and a read-only query. -/
inductive CorpusOp
| ingest (ids : List Nat) (r : IngestOutcome)
| deleteDoc (ids : List Nat)
| query

/-- The joint state of the two indexes, each a collection of chunk
ids. -/
structure IndexState where
  lex : List Nat
  vec : List Nat
deriving DecidableEq, Repr

/-- Remove every listed chunk id from an index. -/
def eraseIds (l ids : List Nat) : List Nat :=
  l.filter (fun x => !(ids.contains x))

/-- Modelled from the spec: the chunk ids of an ingestion that are new to
the corpus; re-upload of already indexed chunk ids is a no-op against the
indexes (idempotent ingestion). -/
def freshIds (s : IndexState) (ids : List Nat) : List Nat :=
  ids.filter (fun i => !(s.lex.contains i) && !(s.vec.contains i))

/-- Modelled from the spec: one orchestrator operation against the dual
index.  A fully successful ingestion writes the fresh chunk ids to both
indexes; when one index write fails after the other succeeded, the
orchestrator issues a compensating delete against the already-written
store before surfacing the failure; deletion removes the given chunk ids
from both indexes; a query mutates nothing. -/
def corpusStep (s : IndexState) (op : CorpusOp) : IndexState :=
  match op with
  | .ingest ids .bothOk =>
      ⟨s.lex ++ freshIds s ids, s.vec ++ freshIds s ids⟩
  | .ingest ids .lexWriteFailed =>
      ⟨s.lex, eraseIds (s.vec ++ freshIds s ids) (freshIds s ids)⟩
  | .ingest ids .vecWriteFailed =>
      ⟨eraseIds (s.lex ++ freshIds s ids) (freshIds s ids), s.vec⟩
  | .deleteDoc ids => ⟨eraseIds s.lex ids, eraseIds s.vec ids⟩
  | .query => s

/-- Run a sequence of orchestrator operations from the empty corpus. -/
def corpusRun (ops : List CorpusOp) : IndexState :=
  ops.foldl corpusStep ⟨[], []⟩

/-- Cross-index consistency: a chunk id is in the Lexical Index exactly
when it is in the Vector Store. -/
def DualConsistent (s : IndexState) : Prop :=
  ∀ c : Nat, c ∈ s.lex ↔ c ∈ s.vec

/-! ## Hybrid retriever fusion model (C7)

The Hybrid Retriever is backend code not present under the sources; the
definitions of this section are modelled from the spec. -/

/-- Modelled from the spec: min-max normalization of one candidate score
s against its score stream, given as s together with the scores rest of
the other candidates of the same stream.  The normalized value is
(s - lo) / (hi - lo) for the stream minimum lo and maximum hi; a
degenerate stream (hi equal to lo, as for a single candidate or all-equal
scores) normalizes to 1. -/
def mmnorm (rest : List ℚ) (s : ℚ) : ℚ :=
  if rest.foldr max s ≤ rest.foldr min s then 1
  else (s - rest.foldr min s) / (rest.foldr max s - rest.foldr min s)

/-- Modelled from the spec: weighted, score-normalized fusion of one
retrieval candidate.  Both score streams are independently min-max
normalized before combination, then summed with the vector and lexical
weights (defaults 0.7 and 0.3, both configurable). -/
def fusedScore (wLex wVec : ℚ) (lexOthers : List ℚ) (lexScore : ℚ)
    (vecOthers : List ℚ) (vecScore : ℚ) : ℚ :=
  wVec * mmnorm vecOthers vecScore + wLex * mmnorm lexOthers lexScore

/-- Scheduler invariant: statuses cover all n items, at most cap uploads
in flight, no index in flight twice, and the admitted items form exactly
the prefix of the submission order below some bound k, with the pending
queue the remaining suffix; statuses agree with queue membership. -/
def SchedInv (n cap : Nat) (s : SchedState) : Prop :=
  s.status.length = n ∧
  s.active.length ≤ cap ∧
  s.active.Nodup ∧
  ∃ k, k ≤ n ∧ s.pending = List.range' k (n - k) ∧
    (∀ i ∈ s.active, i < k) ∧
    (∀ i, i < n →
      (k ≤ i → statusAt s i = UploadStatus.waiting) ∧
      (i < k → i ∈ s.active → statusAt s i = UploadStatus.uploading) ∧
      (i < k → i ∉ s.active →
        statusAt s i = UploadStatus.completed ∨
          statusAt s i = UploadStatus.error))

end DocAssistant

namespace DocAssistant

/-! ## Theorems for C2 -/

/-- C2 counterexample: the claim states that the document-list UI displays
the chunk count from the chunk_count field.  On the concrete document
entry below, the count shown by the card render is the length of the
collections field, 2, while chunk_count is 7. -/
theorem c2_render_ignores_chunk_count :
    (renderDocCard ⟨"spec.pdf", 7, ["colA", "colB"]⟩).2 = 2 ∧
    (⟨"spec.pdf", 7, ["colA", "colB"]⟩ : DocumentEntry).chunk_count = 7 ∧
    (renderDocCard ⟨"spec.pdf", 7, ["colA", "colB"]⟩).2 ≠
      (⟨"spec.pdf", 7, ["colA", "colB"]⟩ : DocumentEntry).chunk_count := by
  refine ⟨rfl, rfl, ?_⟩
  decide

/-- C2 amended: loadDocuments stores a successful list_documents response
unchanged, and for every stored document the document-list UI displays its
name together with the length of its collections field; the displayed
count is invariant under any change of the chunk_count field, so it is not
read from chunk_count. -/
theorem c2_document_list_render (prev docs : List DocumentEntry) :
    renderDocumentsList (loadDocuments prev (.ok docs)) =
      docs.map (fun d => (d.name, d.collections.length)) ∧
    (∀ d : DocumentEntry, ∀ c : Nat,
      renderDocCard { d with chunk_count := c } = renderDocCard d) := by
  constructor
  · rfl
  · intro d c
    rfl

/-! ## Theorems for C5 -/

/-- C5: after a successful delete the displayed list is the previous list
with exactly the entries named docName removed: the result is a sublist of
the previous list (relative order of the survivors is preserved), an entry
is in the result exactly when it was present before and is not named
docName, every entry not named docName keeps its multiplicity, and a
failed delete leaves the list unchanged. -/
theorem c5_handleDelete_frame (docs : List DocumentEntry) (docName : String) :
    (handleDelete docs docName .success).Sublist docs ∧
    (∀ d : DocumentEntry,
      d ∈ handleDelete docs docName .success ↔ d ∈ docs ∧ d.name ≠ docName) ∧
    (∀ d : DocumentEntry, d.name ≠ docName →
      (handleDelete docs docName .success).count d = docs.count d) ∧
    (∀ msg : String, handleDelete docs docName (.failure msg) = docs) := by
  refine ⟨List.filter_sublist docs, ?_, ?_, fun _ => rfl⟩
  · intro d
    simp [handleDelete, List.mem_filter, bne_iff_ne]
  · intro d hd
    exact List.count_filter (by simpa [bne_iff_ne] using hd)

/-- C5 witness: the theorem applied to a concrete document list.  Deleting
the name b succeeds: the survivors keep order and multiplicity, and the
count of the surviving entry named a is unchanged. -/
theorem c5_handleDelete_frame_witness :
    (handleDelete
        [⟨"a", 1, []⟩, ⟨"b", 2, []⟩, ⟨"a", 1, []⟩] "b" .success).count
      (⟨"a", 1, []⟩ : DocumentEntry) =
      ([⟨"a", 1, []⟩, ⟨"b", 2, []⟩, ⟨"a", 1, []⟩] :
        List DocumentEntry).count ⟨"a", 1, []⟩ :=
  (c5_handleDelete_frame [⟨"a", 1, []⟩, ⟨"b", 2, []⟩, ⟨"a", 1, []⟩]
    "b").2.2.1 ⟨"a", 1, []⟩ (by decide)

/-! ## Theorems for C6 -/

/-- C6: the health check never leaves the status undetermined and never
raises: for every outcome of the health call the resulting status is not
checking; a successful call yields connected and a failed call yields
disconnected; and the Electron check-backend-status handler returns false
on every thrown fetch error and response.ok on every response, as a total
function. -/
theorem c6_health_check_total (r : HealthCallResult) :
    checkBackend r ≠ .checking ∧
    (r = .success → checkBackend r = .connected) ∧
    (∀ msg, r = .failure msg → checkBackend r = .disconnected) ∧
    (∀ msg, checkBackendStatusHandler (.networkError msg) = false) ∧
    (∀ ok, checkBackendStatusHandler (.response ok) = ok) := by
  refine ⟨?_, ?_, ?_, fun _ => rfl, fun _ => rfl⟩
  · cases r <;> simp [checkBackend]
  · intro h
    subst h
    rfl
  · intro msg h
    subst h
    rfl

/-- C6 witness: the theorem applied to a failing health call, giving the
disconnected status for the concrete error message. -/
theorem c6_health_check_total_witness :
    checkBackend (.failure "ECONNREFUSED") = .disconnected :=
  (c6_health_check_total (.failure "ECONNREFUSED")).2.2.1 "ECONNREFUSED" rfl

/-! ## Theorems for C8 -/

/-- C8: only files whose name ends with ".pdf" are ever uploaded: every
file handed to the upload routine has a name ending in ".pdf", every
selected file whose name does not end in ".pdf" is excluded before any
request, and when the selection contains no PDF no file is uploaded and
the upload queue stays empty. -/
theorem c8_pdf_filter (files : List SelectedFile) :
    (∀ f ∈ uploadedFiles files, strEndsWith f.name ".pdf" = true) ∧
    (∀ f ∈ files, strEndsWith f.name ".pdf" = false →
      f ∉ uploadedFiles files) ∧
    (pdfOnly files = [] →
      uploadedFiles files = [] ∧ handleFileUploadQueue files = []) := by
  refine ⟨?_, ?_, ?_⟩
  · intro f hf
    unfold uploadedFiles at hf
    by_cases h : (pdfOnly files).isEmpty
    · simp [h] at hf
    · simp [h] at hf
      exact (List.mem_filter.mp hf).2
  · intro f _ hnot hmem
    unfold uploadedFiles at hmem
    by_cases h : (pdfOnly files).isEmpty
    · simp [h] at hmem
    · simp [h] at hmem
      have := (List.mem_filter.mp hmem).2
      rw [hnot] at this
      exact Bool.false_ne_true this
  · intro h
    constructor
    · simp [uploadedFiles, h]
    · simp [handleFileUploadQueue, h]

/-- C8 witness: a concrete selection with no PDF file produces no uploaded
file and an empty queue. -/
theorem c8_pdf_filter_witness :
    uploadedFiles [⟨"notes.txt"⟩, ⟨"img.png"⟩] = [] ∧
    handleFileUploadQueue [⟨"notes.txt"⟩, ⟨"img.png"⟩] = [] :=
  (c8_pdf_filter [⟨"notes.txt"⟩, ⟨"img.png"⟩]).2.2 (by decide)

/-! ## Theorems for C3 -/

/-- C3: for an accepted question the request issued to the backend is
exactly the pair of the trimmed question and the selected document name,
with doc_name the selected name when one is scoped and null otherwise;
the consumed response fields answer and sources are stored unchanged, so
each stored source carries its doc_name, page, toc_section and confidence
exactly as received. -/
theorem c3_ask_request_shape (input : String) (sel : Option String)
    (msgs : List ChatMessage) (ans : String) (srcs : List Source)
    (hinput : strTrim input ≠ "") :
    (handleSend input false (selectedDocName sel) msgs
        (.success ans srcs)).2 =
      some ⟨strTrim input, selectedDocName sel⟩ ∧
    (∀ n, sel = some n → n ≠ "" →
      (handleSend input false (selectedDocName sel) msgs
          (.success ans srcs)).2 = some ⟨strTrim input, some n⟩) ∧
    (sel = none →
      (handleSend input false (selectedDocName sel) msgs
          (.success ans srcs)).2 = some ⟨strTrim input, none⟩) ∧
    (handleSend input false (selectedDocName sel) msgs
        (.success ans srcs)).1 =
      msgs ++ [⟨.user, strTrim input, []⟩, ⟨.assistant, ans, srcs⟩] ∧
    ((handleSend input false (selectedDocName sel) msgs
        (.success ans srcs)).1.map
          (fun m => m.sources.map
            (fun s => (s.doc_name, s.page, s.toc_section, s.confidence)))) =
      (msgs.map (fun m => m.sources.map
          (fun s => (s.doc_name, s.page, s.toc_section, s.confidence)))) ++
        [[], srcs.map
          (fun s => (s.doc_name, s.page, s.toc_section, s.confidence))] := by
  have hcond : ¬(strTrim input = "" ∨ (false : Bool) = true) := by
    rintro (h | h)
    · exact hinput h
    · exact Bool.false_ne_true h
  refine ⟨?_, ?_, ?_, ?_, ?_⟩
  · simp [handleSend, hcond, hinput, buildAskRequest]
  · intro n hn hne
    subst hn
    simp [handleSend, hcond, hinput, buildAskRequest, selectedDocName, hne]
  · intro hn
    subst hn
    simp [handleSend, hcond, hinput, buildAskRequest, selectedDocName]
  · simp [handleSend, hcond, hinput]
  · simp [handleSend, hcond, hinput]

/-- C3 witness: a concrete accepted question scoped to a document.  The
request is exactly the trimmed question with the selected name, and the
stored assistant message keeps the single source with all four fields. -/
theorem c3_ask_request_shape_witness :
    (handleSend " hello " false (selectedDocName (some "doc.pdf")) []
        (.success "ok" [⟨"doc.pdf", 3, "Section 2", 9 / 10⟩])).2 =
      some ⟨"hello", some "doc.pdf"⟩ :=
  (c3_ask_request_shape " hello " (some "doc.pdf") [] "ok"
      [⟨"doc.pdf", 3, "Section 2", 9 / 10⟩] (by decide)).2.1
    "doc.pdf" rfl (by decide)

/-! ## Theorems for C10 -/

/-- C10: a send with an empty or whitespace-only input, or while a
previous request is in flight, appends no message and issues no request;
otherwise exactly one user message and then exactly one assistant message
(on success) or one error message (on failure) are appended, so the list
grows by exactly two. -/
theorem c10_handleSend_growth (input : String) (loading : Bool)
    (docName : Option String) (msgs : List ChatMessage)
    (outcome : AskOutcome) :
    ((strTrim input = "" ∨ loading = true) →
      handleSend input loading docName msgs outcome = (msgs, none)) ∧
    (strTrim input ≠ "" → loading = false →
      (handleSend input loading docName msgs outcome).2 =
        some (buildAskRequest (strTrim input) docName) ∧
      (handleSend input loading docName msgs outcome).1.length =
        msgs.length + 2 ∧
      ∃ m : ChatMessage,
        (handleSend input loading docName msgs outcome).1 =
          msgs ++ [⟨.user, strTrim input, []⟩, m] ∧
        (∀ a s, outcome = .success a s →
          m = ⟨.assistant, a, s⟩) ∧
        (∀ e, outcome = .failure e →
          m = ⟨.error, answerErrorText e, []⟩)) := by
  constructor
  · intro h
    simp only [handleSend, if_pos h]
  · intro h1 h2
    subst h2
    have hcond : ¬(strTrim input = "" ∨ (false : Bool) = true) := by
      rintro (h | h)
      · exact h1 h
      · exact Bool.false_ne_true h
    cases outcome with
    | success a s =>
      refine ⟨by simp [handleSend, hcond, h1], by simp [handleSend, hcond, h1],
        ⟨.assistant, a, s⟩, by simp [handleSend, hcond, h1], ?_, ?_⟩
      · intro a2 s2 h
        cases h
        rfl
      · intro e h
        cases h
    | failure e =>
      refine ⟨by simp [handleSend, hcond, h1], by simp [handleSend, hcond, h1],
        ⟨.error, answerErrorText e, []⟩, by simp [handleSend, hcond, h1],
        ?_, ?_⟩
      · intro a2 s2 h
        cases h
      · intro e2 h
        cases h
        rfl

/-- C10 witness: a concrete accepted send whose request fails appends the
user message and one error message, growing the empty list to length
two. -/
theorem c10_handleSend_growth_witness :
    (handleSend "hi" false none [] (.failure "boom")).1.length =
      ([] : List ChatMessage).length + 2 :=
  ((c10_handleSend_growth "hi" false none [] (.failure "boom")).2
    (by decide) rfl).2.1

/-! ## Scheduler invariants and the theorems for C1, C9 -/

/-- Reading a list at the index just written. -/
theorem getD_set_self {α : Type} (l : List α) (i : Nat) (a d : α)
    (h : i < l.length) : (l.set i a).getD i d = a := by
  simp [List.getD_eq_getElem?_getD, List.getElem?_set, h]

/-- Reading a list at an index other than the one written. -/
theorem getD_set_ne {α : Type} (l : List α) (i j : Nat) (a d : α)
    (h : i ≠ j) : (l.set i a).getD j d = l.getD j d := by
  simp [List.getD_eq_getElem?_getD, List.getElem?_set_ne h]

/-- Reading a replicated list below its length. -/
theorem getD_replicate_lt {α : Type} (n i : Nat) (a d : α) (h : i < n) :
    (List.replicate n a).getD i d = a := by
  simp [List.getD_eq_getElem?_getD, List.getElem?_replicate, h]

/-- The scheduler invariant holds in the initial state. -/
theorem schedInv_init (n cap : Nat) : SchedInv n cap (schedInit n) := by
  refine ⟨by simp [schedInit], by simp [schedInit], by simp [schedInit],
    0, Nat.zero_le n, by simp [schedInit], by simp [schedInit], ?_⟩
  intro i hi
  refine ⟨fun _ => ?_, fun h => absurd h (Nat.not_lt_zero i),
    fun h => absurd h (Nat.not_lt_zero i)⟩
  show (List.replicate n UploadStatus.waiting).getD i UploadStatus.error =
    UploadStatus.waiting
  exact getD_replicate_lt n i _ _ hi

/-- The scheduler invariant is preserved by every transition. -/
theorem schedInv_step {n cap : Nat} {s s' : SchedState}
    (hinv : SchedInv n cap s) (hstep : UploadStep cap s s') :
    SchedInv n cap s' := by
  obtain ⟨hlen, hcap, hnodup, k, hk, hpend, hact, hstat⟩ := hinv
  cases hstep with
  | start i rest hlt hp =>
    have hkn : k < n := by
      rcases Nat.lt_or_ge k n with h1 | h1
      · exact h1
      · rw [hpend, Nat.sub_eq_zero_of_le h1] at hp
        simp at hp
    have h1 : n - k = (n - (k + 1)) + 1 := by omega
    have h2 : s.pending = k :: List.range' (k + 1) (n - (k + 1)) := by
      rw [hpend, h1, List.range'_succ]
    rw [hp] at h2
    injection h2 with hik hrest
    subst hik
    have hkl : i < s.status.length := by omega
    refine ⟨by simpa using hlen, by simp only [List.length_cons]; omega,
      ?_, i + 1, by omega, hrest, ?_, ?_⟩
    · exact List.nodup_cons.mpr
        ⟨fun hmem => absurd (hact i hmem) (lt_irrefl i), hnodup⟩
    · intro j hj
      rcases List.mem_cons.mp hj with hj | hj
      · omega
      · have := hact j hj
        omega
    · intro j hj
      refine ⟨?_, ?_, ?_⟩
      · intro hle
        have hne : i ≠ j := by omega
        show (s.status.set i UploadStatus.uploading).getD j UploadStatus.error
          = UploadStatus.waiting
        rw [getD_set_ne _ _ _ _ _ hne]
        exact (hstat j hj).1 (by omega)
      · intro hlt2 hmem
        rcases List.mem_cons.mp hmem with hji | hji
        · subst hji
          show (s.status.set j UploadStatus.uploading).getD j
              UploadStatus.error = UploadStatus.uploading
          exact getD_set_self _ _ _ _ hkl
        · have hji2 : j < i := hact j hji
          have hne : i ≠ j := by omega
          show (s.status.set i UploadStatus.uploading).getD j
              UploadStatus.error = UploadStatus.uploading
          rw [getD_set_ne _ _ _ _ _ hne]
          exact (hstat j hj).2.1 hji2 hji
      · intro hlt2 hmem
        have hne2 : j ≠ i := fun h => hmem (h ▸ List.mem_cons_self i _)
        have hji : j < i := by omega
        have hnmem : j ∉ s.active := fun h =>
          hmem (List.mem_cons_of_mem i h)
        show (s.status.set i UploadStatus.uploading).getD j
              UploadStatus.error = UploadStatus.completed ∨
            (s.status.set i UploadStatus.uploading).getD j
              UploadStatus.error = UploadStatus.error
        rw [getD_set_ne _ _ _ _ _ (by omega)]
        exact (hstat j hj).2.2 hji hnmem
  | finishOk i hi =>
    have hik : i < k := hact i hi
    have hkl : i < s.status.length := by omega
    refine ⟨by simpa using hlen,
      le_trans (List.Sublist.length_le (List.erase_sublist i s.active))
        hcap,
      hnodup.erase i, k, hk, hpend,
      fun j hj => hact j (List.mem_of_mem_erase hj), ?_⟩
    intro j hj
    refine ⟨?_, ?_, ?_⟩
    · intro hle
      show (s.status.set i UploadStatus.completed).getD j
          UploadStatus.error = UploadStatus.waiting
      rw [getD_set_ne _ _ _ _ _ (by omega)]
      exact (hstat j hj).1 hle
    · intro hlt2 hmem
      have hji : j ≠ i := ((hnodup.mem_erase_iff).mp hmem).1
      show (s.status.set i UploadStatus.completed).getD j
          UploadStatus.error = UploadStatus.uploading
      rw [getD_set_ne _ _ _ _ _ (Ne.symm hji)]
      exact (hstat j hj).2.1 hlt2 (List.mem_of_mem_erase hmem)
    · intro hlt2 hmem
      by_cases hji : j = i
      · subst hji
        show (s.status.set j UploadStatus.completed).getD j
            UploadStatus.error = UploadStatus.completed ∨
          (s.status.set j UploadStatus.completed).getD j
            UploadStatus.error = UploadStatus.error
        rw [getD_set_self _ _ _ _ hkl]
        exact Or.inl rfl
      · have hnmem : j ∉ s.active := fun h =>
          hmem ((hnodup.mem_erase_iff).mpr ⟨hji, h⟩)
        show (s.status.set i UploadStatus.completed).getD j
            UploadStatus.error = UploadStatus.completed ∨
          (s.status.set i UploadStatus.completed).getD j
            UploadStatus.error = UploadStatus.error
        rw [getD_set_ne _ _ _ _ _ (Ne.symm hji)]
        exact (hstat j hj).2.2 hlt2 hnmem
  | finishErr i hi =>
    have hik : i < k := hact i hi
    have hkl : i < s.status.length := by omega
    refine ⟨by simpa using hlen,
      le_trans (List.Sublist.length_le (List.erase_sublist i s.active))
        hcap,
      hnodup.erase i, k, hk, hpend,
      fun j hj => hact j (List.mem_of_mem_erase hj), ?_⟩
    intro j hj
    refine ⟨?_, ?_, ?_⟩
    · intro hle
      show (s.status.set i UploadStatus.error).getD j
          UploadStatus.error = UploadStatus.waiting
      rw [getD_set_ne _ _ _ _ _ (by omega)]
      exact (hstat j hj).1 hle
    · intro hlt2 hmem
      have hji : j ≠ i := ((hnodup.mem_erase_iff).mp hmem).1
      show (s.status.set i UploadStatus.error).getD j
          UploadStatus.error = UploadStatus.uploading
      rw [getD_set_ne _ _ _ _ _ (Ne.symm hji)]
      exact (hstat j hj).2.1 hlt2 (List.mem_of_mem_erase hmem)
    · intro hlt2 hmem
      by_cases hji : j = i
      · subst hji
        show (s.status.set j UploadStatus.error).getD j
            UploadStatus.error = UploadStatus.completed ∨
          (s.status.set j UploadStatus.error).getD j
            UploadStatus.error = UploadStatus.error
        rw [getD_set_self _ _ _ _ hkl]
        exact Or.inr rfl
      · have hnmem : j ∉ s.active := fun h =>
          hmem ((hnodup.mem_erase_iff).mpr ⟨hji, h⟩)
        show (s.status.set i UploadStatus.error).getD j
            UploadStatus.error = UploadStatus.completed ∨
          (s.status.set i UploadStatus.error).getD j
            UploadStatus.error = UploadStatus.error
        rw [getD_set_ne _ _ _ _ _ (Ne.symm hji)]
        exact (hstat j hj).2.2 hlt2 hnmem

/-- The scheduler invariant holds in every reachable state. -/
theorem schedInv_reachable {n cap : Nat} {s : SchedState}
    (h : UploadReachable n cap s) : SchedInv n cap s := by
  induction h with
  | refl => exact schedInv_init n cap
  | tail _ hstep ih => exact schedInv_step ih hstep

/-- C1: in every state the upload scheduler can reach for a batch of n
files with the cap of 5 used by handleFileUpload, at most 5 items are in
the uploading state, and admission is FIFO: an item in the uploading
state always precedes, in submission order, every item still waiting. -/
theorem c1_bounded_fifo_upload {n : Nat} {s : SchedState}
    (h : UploadReachable n 5 s) :
    ((Finset.range n).filter
        (fun i => statusAt s i = UploadStatus.uploading)).card ≤ 5 ∧
    (∀ i j, i < n → j < n → statusAt s i = UploadStatus.uploading →
      statusAt s j = UploadStatus.waiting → i < j) := by
  obtain ⟨hlen, hcap, hnodup, k, hk, hpend, hact, hstat⟩ :=
    schedInv_reachable h
  constructor
  · have hsub : (Finset.range n).filter
        (fun i => statusAt s i = UploadStatus.uploading) ⊆
        s.active.toFinset := by
      intro i hi
      rw [Finset.mem_filter, Finset.mem_range] at hi
      obtain ⟨hin, hup⟩ := hi
      rw [List.mem_toFinset]
      rcases Nat.lt_or_ge i k with hik | hik
      · by_contra hnot
        rcases (hstat i hin).2.2 hik hnot with h1 | h1 <;>
          rw [hup] at h1 <;> simp at h1
      · have h1 := (hstat i hin).1 hik
        rw [hup] at h1
        simp at h1
    calc ((Finset.range n).filter
          (fun i => statusAt s i = UploadStatus.uploading)).card
        ≤ s.active.toFinset.card := Finset.card_le_card hsub
      _ ≤ s.active.length := List.toFinset_card_le s.active
      _ ≤ 5 := hcap
  · intro i j hi hj hup hw
    have hik : i < k := by
      rcases Nat.lt_or_ge i k with h1 | h1
      · exact h1
      · have h2 := (hstat i hi).1 h1
        rw [hup] at h2
        simp at h2
    have hjk : k ≤ j := by
      rcases Nat.lt_or_ge j k with h1 | h1
      · by_cases hja : j ∈ s.active
        · have h2 := (hstat j hj).2.1 h1 hja
          rw [hw] at h2
          simp at h2
        · rcases (hstat j hj).2.2 h1 hja with h2 | h2 <;>
            rw [hw] at h2 <;> simp at h2
      · exact h1
    omega

/-- C1 witness: the state of a two-file batch after the first admission
is reachable; there one item is uploading, which is within the cap, and
it precedes the still waiting second item. -/
theorem c1_bounded_fifo_upload_witness :
    ((Finset.range 2).filter
        (fun i => statusAt
          ⟨[1], [0], [UploadStatus.uploading, UploadStatus.waiting]⟩ i =
            UploadStatus.uploading)).card ≤ 5 ∧
    (∀ i j, i < 2 → j < 2 →
      statusAt ⟨[1], [0], [UploadStatus.uploading, UploadStatus.waiting]⟩
          i = UploadStatus.uploading →
      statusAt ⟨[1], [0], [UploadStatus.uploading, UploadStatus.waiting]⟩
          j = UploadStatus.waiting → i < j) :=
  c1_bounded_fifo_upload
    (Relation.ReflTransGen.single
      (UploadStep.start (schedInit 2) 0 [1] (by decide) rfl))

/-- C9: along every transition from a reachable scheduler state, the
status of each item either stays unchanged, moves from waiting to
uploading, or moves from uploading to completed or to error; and when the
scheduler loop has finished (pending and active both empty) every item
is completed or error, none waiting or uploading. -/
theorem c9_status_lifecycle {n : Nat} {s s' : SchedState}
    (h : UploadReachable n 5 s) (hstep : UploadStep 5 s s') :
    (∀ i, i < n →
      statusAt s' i = statusAt s i ∨
      (statusAt s i = UploadStatus.waiting ∧
        statusAt s' i = UploadStatus.uploading) ∨
      (statusAt s i = UploadStatus.uploading ∧
        (statusAt s' i = UploadStatus.completed ∨
          statusAt s' i = UploadStatus.error))) ∧
    (s.pending = [] → s.active = [] →
      ∀ i, i < n → statusAt s i = UploadStatus.completed ∨
        statusAt s i = UploadStatus.error) := by
  obtain ⟨hlen, hcap, hnodup, k, hk, hpend, hact, hstat⟩ :=
    schedInv_reachable h
  constructor
  · intro i hi
    cases hstep with
    | start i0 rest hlt hp =>
      have hkn : k < n := by
        rcases Nat.lt_or_ge k n with h1 | h1
        · exact h1
        · rw [hpend, Nat.sub_eq_zero_of_le h1] at hp
          simp at hp
      have h1 : n - k = (n - (k + 1)) + 1 := by omega
      have h2 : s.pending = k :: List.range' (k + 1) (n - (k + 1)) := by
        rw [hpend, h1, List.range'_succ]
      rw [hp] at h2
      injection h2 with hik hrest
      subst hik
      by_cases hii : i = i0
      · subst hii
        refine Or.inr (Or.inl ⟨(hstat i hi).1 (le_refl i), ?_⟩)
        show (s.status.set i UploadStatus.uploading).getD i
            UploadStatus.error = UploadStatus.uploading
        exact getD_set_self _ _ _ _ (by omega)
      · refine Or.inl ?_
        show (s.status.set i0 UploadStatus.uploading).getD i
            UploadStatus.error = statusAt s i
        exact getD_set_ne _ _ _ _ _ (fun h => hii h.symm)
    | finishOk i0 hi0 =>
      by_cases hii : i = i0
      · subst hii
        refine Or.inr (Or.inr ⟨(hstat i hi).2.1 (hact i hi0) hi0, Or.inl ?_⟩)
        show (s.status.set i UploadStatus.completed).getD i
            UploadStatus.error = UploadStatus.completed
        exact getD_set_self _ _ _ _ (by have := hact i hi0; omega)
      · refine Or.inl ?_
        show (s.status.set i0 UploadStatus.completed).getD i
            UploadStatus.error = statusAt s i
        exact getD_set_ne _ _ _ _ _ (fun h => hii h.symm)
    | finishErr i0 hi0 =>
      by_cases hii : i = i0
      · subst hii
        refine Or.inr (Or.inr ⟨(hstat i hi).2.1 (hact i hi0) hi0, Or.inr ?_⟩)
        show (s.status.set i UploadStatus.error).getD i
            UploadStatus.error = UploadStatus.error
        exact getD_set_self _ _ _ _ (by have := hact i hi0; omega)
      · refine Or.inl ?_
        show (s.status.set i0 UploadStatus.error).getD i
            UploadStatus.error = statusAt s i
        exact getD_set_ne _ _ _ _ _ (fun h => hii h.symm)
  · intro hpe hae i hi
    have hkn : n - k = 0 := by
      have := congrArg List.length (hpend.symm.trans hpe)
      simpa [List.length_range'] using this
    have hik : i < k := by omega
    have hnmem : i ∉ s.active := by
      rw [hae]
      exact List.not_mem_nil i
    exact (hstat i hi).2.2 hik hnmem

/-- C9 witness: for a one-file batch, the state with the single file in
flight is reachable, and the finishing transition moves that file from
uploading to completed. -/
theorem c9_status_lifecycle_witness :
    statusAt ⟨[], [], [UploadStatus.completed]⟩ 0 =
        statusAt ⟨[], [0], [UploadStatus.uploading]⟩ 0 ∨
      (statusAt ⟨[], [0], [UploadStatus.uploading]⟩ 0 =
          UploadStatus.waiting ∧
        statusAt ⟨[], [], [UploadStatus.completed]⟩ 0 =
          UploadStatus.uploading) ∨
      (statusAt ⟨[], [0], [UploadStatus.uploading]⟩ 0 =
          UploadStatus.uploading ∧
        (statusAt ⟨[], [], [UploadStatus.completed]⟩ 0 =
            UploadStatus.completed ∨
          statusAt ⟨[], [], [UploadStatus.completed]⟩ 0 =
            UploadStatus.error)) :=
  (c9_status_lifecycle
    (Relation.ReflTransGen.single
      (UploadStep.start (schedInit 1) 0 [] (by decide) rfl))
    (UploadStep.finishOk ⟨[], [0], [UploadStatus.uploading]⟩ 0
      (by decide))).1 0 (by decide)

/-! ## Theorems for C4 -/

/-- Membership in an index after a compensating or document delete. -/
theorem mem_eraseIds {l ids : List Nat} {c : Nat} :
    c ∈ eraseIds l ids ↔ c ∈ l ∧ c ∉ ids := by
  simp [eraseIds]

/-- Membership in the fresh chunk ids of an ingestion. -/
theorem mem_freshIds {s : IndexState} {ids : List Nat} {c : Nat} :
    c ∈ freshIds s ids ↔ c ∈ ids ∧ c ∉ s.lex ∧ c ∉ s.vec := by
  simp [freshIds]

/-- Every single orchestrator operation preserves cross-index
consistency. -/
theorem corpusStep_consistent {s : IndexState} (op : CorpusOp)
    (hs : DualConsistent s) : DualConsistent (corpusStep s op) := by
  cases op with
  | ingest ids r =>
    cases r with
    | bothOk =>
      intro c
      show c ∈ s.lex ++ freshIds s ids ↔ c ∈ s.vec ++ freshIds s ids
      simp [List.mem_append, hs c]
    | lexWriteFailed =>
      intro c
      show c ∈ s.lex ↔
        c ∈ eraseIds (s.vec ++ freshIds s ids) (freshIds s ids)
      rw [mem_eraseIds, List.mem_append]
      constructor
      · intro hc
        exact ⟨Or.inl ((hs c).mp hc),
          fun hf => (mem_freshIds.mp hf).2.1 hc⟩
      · rintro ⟨hc | hc, hn⟩
        · exact (hs c).mpr hc
        · exact absurd hc hn
    | vecWriteFailed =>
      intro c
      show c ∈ eraseIds (s.lex ++ freshIds s ids) (freshIds s ids) ↔
        c ∈ s.vec
      rw [mem_eraseIds, List.mem_append]
      constructor
      · rintro ⟨hc | hc, hn⟩
        · exact (hs c).mp hc
        · exact absurd hc hn
      · intro hc
        exact ⟨Or.inl ((hs c).mpr hc),
          fun hf => (mem_freshIds.mp hf).2.2 hc⟩
  | deleteDoc ids =>
    intro c
    show c ∈ eraseIds s.lex ids ↔ c ∈ eraseIds s.vec ids
    rw [mem_eraseIds, mem_eraseIds, hs c]
  | query => exact hs

/-- C4: cross-index consistency between requests.  After any sequence of
ingestion, deletion and query operations from the empty corpus, a chunk
id is in the Lexical Index exactly when it is in the Vector Store; and
each single operation, run from any consistent state, yields a consistent
state (ingestion restores consistency through the compensating delete
when one index write fails). -/
theorem c4_dual_index_consistency (ops : List CorpusOp) :
    DualConsistent (corpusRun ops) ∧
    (∀ s : IndexState, ∀ op : CorpusOp,
      DualConsistent s → DualConsistent (corpusStep s op)) := by
  constructor
  · have hgen : ∀ (l : List CorpusOp) (s : IndexState),
        DualConsistent s → DualConsistent (l.foldl corpusStep s) := by
      intro l
      induction l with
      | nil => exact fun s hs => hs
      | cons op tl ih =>
        intro s hs
        exact ih _ (corpusStep_consistent op hs)
    exact hgen ops ⟨[], []⟩ (fun _ => Iff.rfl)
  · exact fun s op hs => corpusStep_consistent op hs

/-- C4 witness: an ingestion whose lexical write fails is compensated; run
on the concretely consistent empty corpus it yields a consistent state. -/
theorem c4_dual_index_consistency_witness :
    DualConsistent
      (corpusStep ⟨[], []⟩ (CorpusOp.ingest [5] .lexWriteFailed)) :=
  (c4_dual_index_consistency []).2 ⟨[], []⟩
    (CorpusOp.ingest [5] .lexWriteFailed) (fun _ => Iff.rfl)

/-! ## Theorems for C7 -/

/-- Folding min commutes between the initial value and a stream value. -/
theorem foldr_min_comm (l : List ℚ) (x y : ℚ) :
    min x (l.foldr min y) = min y (l.foldr min x) := by
  induction l with
  | nil => exact min_comm x y
  | cons b l ih =>
    simp only [List.foldr_cons]
    rw [min_left_comm, ih, min_left_comm]

/-- Folding max commutes between the initial value and a stream value. -/
theorem foldr_max_comm (l : List ℚ) (x y : ℚ) :
    max x (l.foldr max y) = max y (l.foldr max x) := by
  induction l with
  | nil => exact max_comm x y
  | cons b l ih =>
    simp only [List.foldr_cons]
    rw [max_left_comm, ih, max_left_comm]

/-- The min-max normalized value, written with the stream minimum and
maximum of the other candidates made explicit, is monotone in the score
being normalized, even though raising the score can also raise the
stream maximum used for normalization. -/
theorem minmax_mono_core (m M s t : ℚ) (hst : s ≤ t) :
    (if max s M ≤ min s m then (1 : ℚ)
      else (s - min s m) / (max s M - min s m)) ≤
    (if max t M ≤ min t m then (1 : ℚ)
      else (t - min t m) / (max t M - min t m)) := by
  have hle1 : (if max s M ≤ min s m then (1 : ℚ)
      else (s - min s m) / (max s M - min s m)) ≤ 1 := by
    by_cases hg : max s M ≤ min s m
    · rw [if_pos hg]
    · rw [if_neg hg]
      have hlt : min s m < max s M := not_le.mp hg
      rw [div_le_one (by linarith)]
      have h1 : s ≤ max s M := le_max_left s M
      linarith
  by_cases hI : M ≤ t
  · have hR : (if max t M ≤ min t m then (1 : ℚ)
        else (t - min t m) / (max t M - min t m)) = 1 := by
      by_cases hg : max t M ≤ min t m
      · rw [if_pos hg]
      · rw [if_neg hg]
        have hMt : max t M = t := max_eq_left hI
        have hlt : min t m < max t M := not_le.mp hg
        rw [hMt] at hlt ⊢
        exact div_self (by linarith)
    rw [hR]
    exact hle1
  · have hII : t < M := not_le.mp hI
    have hsM : s < M := lt_of_le_of_lt hst hII
    have hMs : max s M = M := max_eq_right (le_of_lt hsM)
    have hMt : max t M = M := max_eq_right (le_of_lt hII)
    have hgs : ¬ max s M ≤ min s m := by
      rw [hMs]
      intro h
      exact absurd (le_trans h (min_le_left s m)) (not_le.mpr hsM)
    have hgt : ¬ max t M ≤ min t m := by
      rw [hMt]
      intro h
      exact absurd (le_trans h (min_le_left t m)) (not_le.mpr hII)
    rw [if_neg hgs, if_neg hgt, hMs, hMt]
    by_cases hta : t ≤ m
    · have hsa : s ≤ m := le_trans hst hta
      rw [min_eq_left hta, min_eq_left hsa, sub_self, sub_self,
        zero_div, zero_div]
    · have htm : m < t := not_le.mp hta
      rw [min_eq_right (le_of_lt htm)]
      by_cases hsa : s ≤ m
      · rw [min_eq_left hsa, sub_self, zero_div]
        apply div_nonneg <;> linarith
      · have hsm : m < s := not_le.mp hsa
        rw [min_eq_right (le_of_lt hsm)]
        have hd : (0 : ℚ) < M - m := by linarith
        exact (div_le_div_iff_of_pos_right hd).mpr (by linarith)

/-- Min-max normalization against a fixed set of other candidate scores
is monotone in the candidate score. -/
theorem mmnorm_mono (rest : List ℚ) {s t : ℚ} (hst : s ≤ t) :
    mmnorm rest s ≤ mmnorm rest t := by
  cases rest with
  | nil => simp [mmnorm]
  | cons a l =>
    have h1 : (a :: l).foldr min s = min s (l.foldr min a) := by
      simp only [List.foldr_cons]
      exact foldr_min_comm l a s
    have h2 : (a :: l).foldr max s = max s (l.foldr max a) := by
      simp only [List.foldr_cons]
      exact foldr_max_comm l a s
    have h3 : (a :: l).foldr min t = min t (l.foldr min a) := by
      simp only [List.foldr_cons]
      exact foldr_min_comm l a t
    have h4 : (a :: l).foldr max t = max t (l.foldr max a) := by
      simp only [List.foldr_cons]
      exact foldr_max_comm l a t
    unfold mmnorm
    rw [h1, h2, h3, h4]
    exact minmax_mono_core (l.foldr min a) (l.foldr max a) s t hst

/-- C7: under nonnegative fusion weights (the defaults are 0.7 and 0.3),
increasing a candidate's lexical score with its vector score fixed, or
increasing its vector score with its lexical score fixed, never decreases
its fused score under the weighted, min-max-normalized fusion, with the
scores of the other candidates in both streams held fixed. -/
theorem c7_fusion_monotone (wLex wVec : ℚ)
    (lexOthers vecOthers : List ℚ) (ls ls2 vs vs2 : ℚ)
    (hwl : 0 ≤ wLex) (hwv : 0 ≤ wVec) :
    (ls ≤ ls2 →
      fusedScore wLex wVec lexOthers ls vecOthers vs ≤
        fusedScore wLex wVec lexOthers ls2 vecOthers vs) ∧
    (vs ≤ vs2 →
      fusedScore wLex wVec lexOthers ls vecOthers vs ≤
        fusedScore wLex wVec lexOthers ls vecOthers vs2) := by
  constructor
  · intro h
    unfold fusedScore
    exact add_le_add (le_refl _)
      (mul_le_mul_of_nonneg_left (mmnorm_mono lexOthers h) hwl)
  · intro h
    unfold fusedScore
    exact add_le_add
      (mul_le_mul_of_nonneg_left (mmnorm_mono vecOthers h) hwv)
      (le_refl _)

/-- C7 witness: with the default weights 0.3 and 0.7 and concrete score
streams, raising the lexical score from 2 to 3 does not decrease the
fused score. -/
theorem c7_fusion_monotone_witness :
    fusedScore (3 / 10) (7 / 10) [1, 4] 2 [0, 1] (1 / 2) ≤
      fusedScore (3 / 10) (7 / 10) [1, 4] 3 [0, 1] (1 / 2) :=
  (c7_fusion_monotone (3 / 10) (7 / 10) [1, 4] [0, 1] 2 3 (1 / 2) (1 / 2)
    (by norm_num) (by norm_num)).1 (by norm_num)

end DocAssistant
